import Mathlib

/-!
Verification development for `bitcraft_mercantile` (`src/app/main.py`).

The program is a single pandas pipeline inside `main()`.  We shallowly embed
each stage as a pure Lean function over explicit record types:

* order-book normalization (`main.py` lines 116-140): attach item metadata to
  raw orders, then group by every non-quantity column and sum quantities;
* arbitrage matching (lines 160-187): inner join of the sell pool against the
  buy pool on the five join columns, the home-claim filter, the derived
  trade-quantity / unit-profit columns, and the positive-profit filter;
* distance resolution (lines 217-222): Euclidean distance to the home claim,
  divided by 3, rounded to 2 decimals (numpy rounds half to even);
* capacity modelling (lines 237-291): the fixed player/vehicle capacity
  tables and per-vehicle quantity / profit / profit-per-1000-distance columns;
* report assembly (lines 294-330): column drop/rename, the descending sort on
  the Cargo Ship profit-per-1k-distance column, replacement of infinities by
  NaN followed by `dropna`, and the overview-cell computations.

Machine floats only ever hold finite rationals, `inf`, `-inf` or `nan` here,
so float-valued cells are embedded as the inductive `PFloat` over `ℚ`;
integer columns are embedded as `Int`.  Python `int(a/b)` is truncation
toward zero; for the magnitudes appearing in the program (numerators at most
606000) the intermediate float division is exact enough that truncation of
the float equals truncation of the exact quotient, so it is embedded as
`Int.tdiv`.
-/

namespace BitcraftMercantile

open List

/-! ## Order book data model and normalizer (main.py lines 59-140) -/

/-- One raw order dict as returned by the per-item order-book endpoint,
restricted to the columns the script keeps (`market_cols_0`, lines 59-71)
minus the three item-metadata columns that the script itself attaches
(lines 120-126).  `quantity` is the value after `astype(int)` (line 133). -/
structure RawOrder where
  itemId : Int
  itemType : Int
  priceThreshold : Int
  quantity : Int
  claimEntityId : String
  claimName : String
  regionName : String
deriving DecidableEq

/-- The non-quantity columns of a normalized pool record: exactly the
grouping key `[x for x in market_cols_0 if x != "quantity"]` used at
lines 135-136. -/
structure OrderKey where
  itemName : String
  itemTypeStr : String
  itemId : Int
  itemType : Int
  itemVolume : Int
  priceThreshold : Int
  claimEntityId : String
  claimName : String
  regionName : String
deriving DecidableEq

/-- A record of a normalized buy or sell pool (all `market_cols_0` columns). -/
structure Order extends OrderKey where
  quantity : Int
deriving DecidableEq

/-- Lines 121-126: attach the item display name, the capitalized type label
and the item volume uniformly to every raw order of the current item. -/
def attachMeta (itemName itemTypeStr : String) (itemVolume : Int)
    (r : RawOrder) : Order :=
  { itemName := itemName
    itemTypeStr := itemTypeStr
    itemId := r.itemId
    itemType := r.itemType
    itemVolume := itemVolume
    priceThreshold := r.priceThreshold
    claimEntityId := r.claimEntityId
    claimName := r.claimName
    regionName := r.regionName
    quantity := r.quantity }

/-- Lines 135-136: `groupby` over all non-quantity columns with
`["quantity"].sum()`.  One output record per distinct key, whose quantity is
the sum of the quantities of the input records with that key.  (pandas emits
the groups sorted by key; no claim below depends on row order, so the key
order is abstracted by `List.dedup`.) -/
def normalize (pool : List Order) : List Order :=
  ((pool.map Order.toOrderKey).dedup).map (fun k =>
    { toOrderKey := k
      quantity := ((pool.filter (fun o => o.toOrderKey = k)).map
        Order.quantity).sum })

/-- Lines 116-140 for one side of one item: build the normalized pool from
the raw order list. -/
def buildPool (itemName itemTypeStr : String) (itemVolume : Int)
    (raws : List RawOrder) : List Order :=
  normalize (raws.map (attachMeta itemName itemTypeStr itemVolume))

/-! ## Arbitrage matcher (main.py lines 142-190) -/

/-- One row of `merged_df` right after the `pd.merge` of line 169: the five
join columns once, plus the renamed sell-side and buy-side columns
(lines 143-158). -/
structure MergedRow where
  itemName : String
  itemTypeStr : String
  itemId : Int
  itemType : Int
  itemVolume : Int
  sellPrice : Int
  sellQty : Int
  sellClaimEntityId : String
  sellClaimName : String
  sellRegionName : String
  buyPrice : Int
  buyQty : Int
  buyClaimEntityId : String
  buyClaimName : String
  buyRegionName : String
deriving DecidableEq

/-- The join key of lines 161-167: `itemName`, `itemTypeStr`, `itemId`,
`itemType`, `itemVolume`.  Prices, quantities and locations are not part of
the key. -/
def joinKey (o : Order) : String × String × Int × Int × Int :=
  (o.itemName, o.itemTypeStr, o.itemId, o.itemType, o.itemVolume)

/-- The merged row produced from one sell record and one buy record whose
join keys agree. -/
def mkMergedRow (s b : Order) : MergedRow :=
  { itemName := s.itemName
    itemTypeStr := s.itemTypeStr
    itemId := s.itemId
    itemType := s.itemType
    itemVolume := s.itemVolume
    sellPrice := s.priceThreshold
    sellQty := s.quantity
    sellClaimEntityId := s.claimEntityId
    sellClaimName := s.claimName
    sellRegionName := s.regionName
    buyPrice := b.priceThreshold
    buyQty := b.quantity
    buyClaimEntityId := b.claimEntityId
    buyClaimName := b.claimName
    buyRegionName := b.regionName }

/-- Line 169: `pd.merge(left=all_sells, right=all_buys, ..., how="inner")`.
A pandas inner merge emits, for each left row in order, one output row per
matching right row in right order. -/
def mergeOrders (sells buys : List Order) : List MergedRow :=
  sells.flatMap (fun s =>
    (buys.filter (fun b => joinKey s = joinKey b)).map (mkMergedRow s))

/-- Line 178: keep only rows where the sell-side or the buy-side claim id is
the claim of interest. -/
def homeFilter (claim_id : String) (l : List MergedRow) : List MergedRow :=
  l.filter (fun r =>
    r.sellClaimEntityId = claim_id ∨ r.buyClaimEntityId = claim_id)

/-- A merged row enriched with the derived columns of lines 183-184. -/
structure MatchRow extends MergedRow where
  tradeQty : Int
  unitProfit : Int
deriving DecidableEq

/-- Lines 183-184: `Trade Quantity = min(Buying Quantity, Selling Quantity)`
(row-wise `min(axis=1)`) and `Unit Profit = Buying Price - Selling Price`. -/
def addDerived (l : List MergedRow) : List MatchRow :=
  l.map (fun r =>
    { toMergedRow := r
      tradeQty := min r.buyQty r.sellQty
      unitProfit := r.buyPrice - r.sellPrice })

/-- Line 187: drop rows whose unit profit is not strictly positive. -/
def profitFilter (l : List MatchRow) : List MatchRow :=
  l.filter (fun m => 0 < m.unitProfit)

/-- Lines 169-187: the whole per-item matcher, from the two normalized pools
to the rows that are appended to `full_df` (line 190). -/
def processItem (claim_id : String) (sells buys : List Order) :
    List MatchRow :=
  profitFilter (addDerived (homeFilter claim_id (mergeOrders sells buys)))

/-! ## Capacity model (main.py lines 237-291) -/

/-- One entry of the capacity configuration dicts of lines 238-269. -/
structure VehicleCapacity where
  item_slots : Int
  cargo_slots : Int
  item_slot_size : Int
  cargo_slot_size : Int
deriving DecidableEq

/-- Lines 238-243. -/
def player_capacity : VehicleCapacity :=
  { item_slots := 25, cargo_slots := 1,
    item_slot_size := 6000, cargo_slot_size := 6000 }

/-- Lines 245-250. -/
def raft : VehicleCapacity :=
  { item_slots := 6, cargo_slots := 1,
    item_slot_size := 6000, cargo_slot_size := 60000 }

/-- Lines 251-256. -/
def skiff : VehicleCapacity :=
  { item_slots := 24, cargo_slots := 4,
    item_slot_size := 6000, cargo_slot_size := 60000 }

/-- Lines 257-262. -/
def clipper : VehicleCapacity :=
  { item_slots := 30, cargo_slots := 6,
    item_slot_size := 6000, cargo_slot_size := 60000 }

/-- Lines 263-268. -/
def cargo_ship : VehicleCapacity :=
  { item_slots := 30, cargo_slots := 10,
    item_slot_size := 6000, cargo_slot_size := 60000 }

/-- The `vehicle_capacity` dict of lines 244-269, in insertion order. -/
def vehicle_capacity : List (String × VehicleCapacity) :=
  [("Raft", raft), ("Skiff", skiff), ("Clipper", clipper),
   ("Cargo Ship", cargo_ship)]

/-- Line 270: `base_item_qty = item_slot_size * item_slots` of the player. -/
def base_item_qty : Int :=
  player_capacity.item_slot_size * player_capacity.item_slots

/-- Line 271: `base_cargo_qty = cargo_slot_size * cargo_slots` of the player. -/
def base_cargo_qty : Int :=
  player_capacity.cargo_slot_size * player_capacity.cargo_slots

/-- Lines 275-282: the pre-division capacity for one vehicle and one item
type label ("Item" rows use item-slot figures plus `base_item_qty`, "Cargo"
rows use cargo-slot figures plus `base_cargo_qty`, anything else gets 0). -/
def rawCapacity (v : VehicleCapacity) (itemTypeStr : String) : Int :=
  if itemTypeStr = "Item" then
    v.item_slot_size * v.item_slots + base_item_qty
  else if itemTypeStr = "Cargo" then
    v.cargo_slot_size * v.cargo_slots + base_cargo_qty
  else 0

/-- Python `int(a/b)`: truncation toward zero of the quotient.  For the
numerators produced by `rawCapacity` (at most 606000) the float division of
line 284 is exact enough that truncating it agrees with truncating the exact
quotient. -/
def pyIntDiv (a b : Int) : Int := Int.tdiv a b

/-- Line 284: the maximum number of units transportable. -/
def maxUnits (v : VehicleCapacity) (itemTypeStr : String) (vol : Int) : Int :=
  pyIntDiv (rawCapacity v itemTypeStr) vol

/-- Line 285: `int(min([Trade Quantity, qty]))`. -/
def vehicleQty (v : VehicleCapacity) (itemTypeStr : String)
    (vol tradeQty : Int) : Int :=
  min tradeQty (maxUnits v itemTypeStr vol)

/-- Line 289: `Profit = Quantity * Unit Profit`. -/
def vehicleProfit (v : VehicleCapacity) (itemTypeStr : String)
    (vol tradeQty unitProfit : Int) : Int :=
  vehicleQty v itemTypeStr vol tradeQty * unitProfit

/-! ## Float cells (finite rationals, infinities, NaN) and numpy rounding -/

/-- The values a float-valued cell of `full_df` can hold: a finite value
(machine floats are rationals), one of the two infinities, or NaN. -/
inductive PFloat where
  | fin (q : ℚ)
  | pinf
  | ninf
  | nan
deriving DecidableEq

/-- Whether a cell holds a finite value. -/
def PFloat.isFin : PFloat → Bool
  | .fin _ => true
  | _ => false

/-- Whether a cell holds NaN. -/
def PFloat.isNan : PFloat → Bool
  | .nan => true
  | _ => false

/-- Line 308: `replace([np.inf, -np.inf], np.nan)` on one cell. -/
def PFloat.replaceInf : PFloat → PFloat
  | .pinf => .nan
  | .ninf => .nan
  | x => x

/-- Floor of a rational, computed directly from the reduced fraction: the
denominator is positive, so Euclidean division of the numerator by it is the
floor. -/
def qfloor (q : ℚ) : ℤ := q.num / (q.den : ℤ)

/-- Round a rational to the nearest integer, ties to even: the rounding mode
of `np.round`. -/
def roundHalfEvenQ (q : ℚ) : ℤ :=
  if q - qfloor q = 1/2 then
    (if qfloor q % 2 = 0 then qfloor q else qfloor q + 1)
  else qfloor (q + 1/2)

/-- `np.round(q, 2)` on a finite value. -/
def roundq2 (q : ℚ) : ℚ := (roundHalfEvenQ (100 * q) : ℚ) / 100

/-- Line 291 for one row: `np.round(1000 * profit / dist, 2)` with IEEE
semantics.  Division of a finite nonzero value by zero gives a signed
infinity, `0.0/0.0` gives NaN, division by an infinity gives (signed) zero,
and `np.round` fixes infinities and NaN. -/
def ppdk (profit : Int) (dist : PFloat) : PFloat :=
  match dist with
  | .fin d =>
      if d = 0 then
        (if 0 < profit then .pinf else if profit < 0 then .ninf else .nan)
      else .fin (roundq2 (1000 * (profit : ℚ) / d))
  | .pinf => .fin 0
  | .ninf => .fin 0
  | .nan => .nan

/-! ## Distance resolver (main.py lines 193-235)

The stored distances are finite machine floats; downstream stages take the
resulting `dist_dict` as a list of (claim id, rational) pairs.  The real
valued formula of line 221 is embedded separately below for the distance
claim, using `Real.sqrt`. -/

/-- Round a real to the nearest integer, ties to even (`np.round`). -/
noncomputable def roundHalfEvenR (x : ℝ) : ℤ :=
  if Int.fract x = 1/2 then
    (if Even ⌊x⌋ then ⌊x⌋ else ⌊x⌋ + 1)
  else round x

/-- `np.round(x, 2)` on a finite real. -/
noncomputable def round2R (x : ℝ) : ℝ := (roundHalfEvenR (100 * x) : ℝ) / 100

/-- Line 221: `np.round(np.sqrt(((X0-claim_X)**2) + ((Z0-claim_Z)**2))/3, 2)`. -/
noncomputable def distCalc (X0 Z0 x z : ℤ) : ℝ :=
  round2R (Real.sqrt (((X0 - x) : ℝ) ^ 2 + ((Z0 - z) : ℝ) ^ 2) / 3)

/-- The planar Euclidean distance between the home coordinates and a
location, as the spec words it. -/
noncomputable def euclideanDistance (X0 Z0 x z : ℤ) : ℝ :=
  Real.sqrt (((X0 - x) : ℝ) ^ 2 + ((Z0 - z) : ℝ) ^ 2)

/-- Lines 199-222: one `dist_dict` entry per successfully fetched location,
mapping its claim id to `distCalc` of its coordinates. -/
noncomputable def buildDistDict (X0 Z0 : ℤ) (fetched : List (String × ℤ × ℤ)) :
    List (String × ℝ) :=
  fetched.map (fun p => (p.1, distCalc X0 Z0 p.2.1 p.2.2))

/-- Lines 230-233: the claim in the trade which is not the claim of
interest.  `claim_0` is the buy side, `claim_1` the sell side. -/
def targetClaim (claim_id : String) (m : MatchRow) : String :=
  if m.buyClaimEntityId = claim_id then m.sellClaimEntityId
  else m.buyClaimEntityId

/-- Line 235: `dist_dict.get(target_claim, np.inf)` — the infinite sentinel
when the fetch for that claim id failed and it is absent from the dict. -/
def lookupDist (dist_dict : List (String × ℚ)) (c : String) : PFloat :=
  match dist_dict.find? (fun p => p.1 = c) with
  | some p => .fin p.2
  | none => .pinf

/-! ## Enriched rows and report assembly (main.py lines 225-330) -/

/-- One row of `full_df` after the distance column (line 235), the
per-vehicle capacity columns (lines 273-291), the column drop (line 294) and
the renames (line 297). -/
structure RankedRow where
  itemName : String
  itemTypeStr : String
  sellPrice : Int
  sellQty : Int
  sellClaimName : String
  sellRegionName : String
  buyPrice : Int
  buyQty : Int
  buyClaimName : String
  buyRegionName : String
  tradeQty : Int
  unitProfit : Int
  distance : PFloat
  raftQty : Int
  raftProfit : Int
  raftPPDK : PFloat
  skiffQty : Int
  skiffProfit : Int
  skiffPPDK : PFloat
  clipperQty : Int
  clipperProfit : Int
  clipperPPDK : PFloat
  cargoShipQty : Int
  cargoShipProfit : Int
  cargoShipPPDK : PFloat
deriving DecidableEq

/-- Lines 225-297 for one match row: look up the distance of the non-home
claim (infinite sentinel on a failed fetch), add the three columns of every
vehicle profile, drop the id columns and rename the display columns. -/
def enrich (claim_id : String) (dist_dict : List (String × ℚ))
    (m : MatchRow) : RankedRow :=
  let d := lookupDist dist_dict (targetClaim claim_id m)
  { itemName := m.itemName
    itemTypeStr := m.itemTypeStr
    sellPrice := m.sellPrice
    sellQty := m.sellQty
    sellClaimName := m.sellClaimName
    sellRegionName := m.sellRegionName
    buyPrice := m.buyPrice
    buyQty := m.buyQty
    buyClaimName := m.buyClaimName
    buyRegionName := m.buyRegionName
    tradeQty := m.tradeQty
    unitProfit := m.unitProfit
    distance := d
    raftQty := vehicleQty raft m.itemTypeStr m.itemVolume m.tradeQty
    raftProfit := vehicleProfit raft m.itemTypeStr m.itemVolume m.tradeQty m.unitProfit
    raftPPDK := ppdk (vehicleProfit raft m.itemTypeStr m.itemVolume m.tradeQty m.unitProfit) d
    skiffQty := vehicleQty skiff m.itemTypeStr m.itemVolume m.tradeQty
    skiffProfit := vehicleProfit skiff m.itemTypeStr m.itemVolume m.tradeQty m.unitProfit
    skiffPPDK := ppdk (vehicleProfit skiff m.itemTypeStr m.itemVolume m.tradeQty m.unitProfit) d
    clipperQty := vehicleQty clipper m.itemTypeStr m.itemVolume m.tradeQty
    clipperProfit := vehicleProfit clipper m.itemTypeStr m.itemVolume m.tradeQty m.unitProfit
    clipperPPDK := ppdk (vehicleProfit clipper m.itemTypeStr m.itemVolume m.tradeQty m.unitProfit) d
    cargoShipQty := vehicleQty cargo_ship m.itemTypeStr m.itemVolume m.tradeQty
    cargoShipProfit := vehicleProfit cargo_ship m.itemTypeStr m.itemVolume m.tradeQty m.unitProfit
    cargoShipPPDK := ppdk (vehicleProfit cargo_ship m.itemTypeStr m.itemVolume m.tradeQty m.unitProfit) d }

/-- The ordering numpy uses on non-NaN float cells: `-inf` below every
finite value, finite values by their rational order, `+inf` above.  (NaN is
never compared: pandas separates NaN rows before sorting; the value chosen
for it here is irrelevant but keeps the relation total.) -/
def PFloat.le : PFloat → PFloat → Bool
  | _, .nan => true
  | .nan, _ => false
  | .ninf, _ => true
  | _, .ninf => false
  | _, .pinf => true
  | .pinf, _ => false
  | .fin a, .fin b => a ≤ b

/-- Stable insertion into an ascending-sorted list: the new element goes
before the first element it compares `le` to. -/
def insertAsc (le : α → α → Bool) (a : α) : List α → List α
  | [] => [a]
  | b :: l => if le a b then a :: b :: l else b :: insertAsc le a l

/-- Stable ascending insertion sort.  numpy introsort runs plain insertion
sort on slices of at most 16 elements, so on such inputs its ascending
argsort coincides with any stable ascending sort; on larger inputs the tie
order of the default quicksort is unspecified and this embedding fixes the
stable one.  No claim below depends on anything beyond the output being a
permutation, except where explicitly discussed. -/
def insertionSortAsc (le : α → α → Bool) : List α → List α
  | [] => []
  | a :: l => insertAsc le a (insertionSortAsc le l)

/-- Line 300, `sort_values(col, ascending=False)`: pandas `nargsort`
separates the NaN rows, reverses the non-NaN rows, takes an ascending
argsort, reverses the result, and appends the NaN rows at the end
(`na_position="last"`). -/
def sortValuesDesc (key : α → PFloat) (l : List α) : List α :=
  (insertionSortAsc (fun a b => (key a).le (key b))
      (l.filter (fun r => !(key r).isNan)).reverse).reverse
    ++ l.filter (fun r => (key r).isNan)

/-- Line 300: `full_df.sort_values("Cargo Ship Profit per 1k Dist",
ascending=False)`. -/
def reportSort (l : List RankedRow) : List RankedRow :=
  sortValuesDesc (fun r => r.cargoShipPPDK) l

/-- Line 308 on one row: replace infinite cells by NaN.  Only the distance
and profit-per-1k-distance columns can be non-finite. -/
def rowReplaceInf (r : RankedRow) : RankedRow :=
  { r with
    distance := r.distance.replaceInf
    raftPPDK := r.raftPPDK.replaceInf
    skiffPPDK := r.skiffPPDK.replaceInf
    clipperPPDK := r.clipperPPDK.replaceInf
    cargoShipPPDK := r.cargoShipPPDK.replaceInf }

/-- Whether a row contains a NaN in any column (string and integer columns
never do). -/
def rowHasNa (r : RankedRow) : Bool :=
  r.distance.isNan || r.raftPPDK.isNan || r.skiffPPDK.isNan ||
    r.clipperPPDK.isNan || r.cargoShipPPDK.isNan

/-- Lines 308-309: `replace([np.inf, -np.inf], np.nan)` followed by
`dropna()` (drop every row containing a missing value in any column). -/
def dropnaStage (l : List RankedRow) : List RankedRow :=
  (l.map rowReplaceInf).filter (fun r => !rowHasNa r)

/-- Lines 225-309: from the concatenated match rows to the final report
table, given the claim of interest and the distance dict. -/
def finalReport (claim_id : String) (dist_dict : List (String × ℚ))
    (ms : List MatchRow) : List RankedRow :=
  dropnaStage (reportSort (ms.map (enrich claim_id dist_dict)))

/-! ## Overview sheet (main.py lines 316-323) -/

/-- Line 317: `pd.unique(full_df[["Buying Claim","Selling Claim"]].values
.ravel("K"))` reads the two name columns in memory order; `pd.unique`
removes duplicates.  Only the length of the result is used (cell G14), so
the traversal order is irrelevant; the buy column is listed first here. -/
def ravelNames (l : List RankedRow) : List String :=
  l.map RankedRow.buyClaimName ++ l.map RankedRow.sellClaimName

/-- Lines 317-323: the value written to the fourth labeled overview cell
(`G14`), the number of distinct claim names across both name columns. -/
def overviewCounterpartyCell (l : List RankedRow) : Nat :=
  (ravelNames l).dedup.length

/-- Modelled from the spec: the number of distinct counterparty locations,
that is, distinct claim names other than the home claim name, appearing in
the final report.  This is the quantity the spec says cell `G14` holds; the
code has no such definition, so it is stated from the words of the spec for
comparison. -/
def specCounterpartyCount (homeName : String) (l : List RankedRow) : Nat :=
  ((ravelNames l).toFinset.filter (fun n => n ≠ homeName)).card

/-- Stated from the words of the spec, for comparison with `rawCapacity`:
effective capacity = profile slots times slot size plus the home-storage
allowance, using item-slot figures when the item type label is "Item",
cargo-slot figures when it is "Cargo", and zero capacity otherwise. -/
def specEffectiveCapacity (v : VehicleCapacity) (itemTypeStr : String) : Int :=
  if itemTypeStr = "Item" then v.item_slots * v.item_slot_size + base_item_qty
  else if itemTypeStr = "Cargo" then
    v.cargo_slots * v.cargo_slot_size + base_cargo_qty
  else 0

/-! ## Concrete example data used by the witness theorems -/

/-- A sell order of the home claim: item "Stone" (id 1, type code 0,
volume 5), price 10, quantity 100, at claim id "H". -/
def exSell : Order := ⟨⟨"Stone", "Item", 1, 0, 5, 10, "H", "Home", "R1"⟩, 100⟩

/-- A buy order of a counterparty claim: same item, price 15, quantity 50,
at claim id "B". -/
def exBuy : Order := ⟨⟨"Stone", "Item", 1, 0, 5, 15, "B", "BTown", "R2"⟩, 50⟩

/-- The match row the matcher produces from `exSell` and `exBuy`: trade
quantity 50, unit profit 5. -/
def exMatch : MatchRow :=
  ⟨⟨"Stone", "Item", 1, 0, 5, 10, 100, "H", "Home", "R1",
    15, 50, "B", "BTown", "R2"⟩, 50, 5⟩

/-- Raw sell orders used by witnesses: the first two share (item, location,
price) and must collapse during normalization. -/
def exRawSells : List RawOrder :=
  [⟨1, 0, 10, 100, "H", "Home", "R1"⟩,
   ⟨1, 0, 10, 30, "H", "Home", "R1"⟩,
   ⟨1, 0, 12, 40, "B", "BTown", "R2"⟩]

/-- Raw buy orders used by witnesses. -/
def exRawBuys : List RawOrder := [⟨1, 0, 15, 50, "B", "BTown", "R2"⟩]

/-- A final-report row used by the overview-cell theorems: one trade between
the home claim (named "Home", on the sell side) and the counterparty
"BTown" (on the buy side). -/
def exRanked : RankedRow :=
  ⟨"Stone", "Item", 10, 100, "Home", "R1", 15, 50, "BTown", "R2", 50, 5,
    PFloat.fin 10, 50, 250, PFloat.fin 25000, 50, 250, PFloat.fin 25000,
    50, 250, PFloat.fin 25000, 50, 250, PFloat.fin 25000⟩

/-! ## Helper lemmas -/

theorem mem_addDerived {m : MatchRow} {l : List MergedRow}
    (h : m ∈ addDerived l) :
    m.toMergedRow ∈ l ∧ m.tradeQty = min m.buyQty m.sellQty ∧
      m.unitProfit = m.buyPrice - m.sellPrice := by
  unfold addDerived at h
  rcases List.mem_map.1 h with ⟨r, hr, rfl⟩
  exact ⟨hr, rfl, rfl⟩

theorem mem_normalize {a : Order} {pool : List Order} (h : a ∈ normalize pool) :
    a.toOrderKey ∈ pool.map Order.toOrderKey ∧
      a = { toOrderKey := a.toOrderKey,
            quantity := ((pool.filter
              (fun o => o.toOrderKey = a.toOrderKey)).map Order.quantity).sum } := by
  unfold normalize at h
  rcases List.mem_map.1 h with ⟨k, hk, rfl⟩
  exact ⟨List.mem_dedup.1 hk, rfl⟩

theorem mem_buildPool {o : Order} {nm ts : String} {vol : Int}
    {raws : List RawOrder} (h : o ∈ buildPool nm ts vol raws) :
    ∃ r ∈ raws, o.toOrderKey = (attachMeta nm ts vol r).toOrderKey := by
  have h2 : o ∈ normalize (raws.map (attachMeta nm ts vol)) := h
  obtain ⟨hk, -⟩ := mem_normalize h2
  rw [List.map_map] at hk
  rcases List.mem_map.1 hk with ⟨r, hr, hkey⟩
  exact ⟨r, hr, hkey.symm⟩

theorem joinKey_buildPool {o : Order} {nm ts : String} {vol iid ity : Int}
    {raws : List RawOrder}
    (hu : ∀ r ∈ raws, r.itemId = iid ∧ r.itemType = ity)
    (h : o ∈ buildPool nm ts vol raws) :
    joinKey o = (nm, ts, iid, ity, vol) := by
  obtain ⟨r, hr, hkey⟩ := mem_buildPool h
  obtain ⟨h1, h2⟩ := hu r hr
  have h3 := congrArg OrderKey.itemName hkey
  have h4 := congrArg OrderKey.itemTypeStr hkey
  have h5 := congrArg OrderKey.itemId hkey
  have h6 := congrArg OrderKey.itemType hkey
  have h7 := congrArg OrderKey.itemVolume hkey
  simp only [attachMeta] at h3 h4 h5 h6 h7
  simp [joinKey, h3, h4, h5, h6, h7, h1, h2]

theorem rawCapacity_nonneg (nv : String × VehicleCapacity)
    (hnv : nv ∈ vehicle_capacity) (ts : String) : 0 ≤ rawCapacity nv.2 ts := by
  fin_cases hnv <;>
    (unfold rawCapacity; split_ifs <;> decide)

theorem pyIntDiv_eq_floor (a b : Int) (ha : 0 ≤ a) (hb : 0 < b) :
    pyIntDiv a b = ⌊(a : ℚ) / (b : ℚ)⌋ := by
  obtain ⟨n, rfl⟩ : ∃ n : ℕ, b = (n : ℤ) :=
    ⟨b.toNat, (Int.toNat_of_nonneg hb.le).symm⟩
  rw [pyIntDiv, Int.tdiv_eq_ediv ha (Int.natCast_nonneg n)]
  rw [show (((n : ℤ) : ℚ)) = ((n : ℕ) : ℚ) by push_cast; rfl]
  exact (Rat.floor_intCast_div_natCast a n).symm

/-! ## Claim theorems -/

/-- C1: for every capacity profile of the vehicle table and every ranked
trade, the capped quantity equals min(trade quantity, floor(effective
capacity / item volume)), where the effective capacity is the profile slots
times slot size plus the home-storage allowance, chosen by the item type
label ("Item" item figures, "Cargo" cargo figures, zero otherwise); the
profit equals capped quantity times unit profit; hence the capped quantity
is at most the trade quantity and at most the floored capacity quotient. -/
theorem c1_capacity_model (nv : String × VehicleCapacity)
    (hnv : nv ∈ vehicle_capacity) (ts : String)
    (vol tradeQty unitProfit : Int) (hvol : 0 < vol) :
    vehicleQty nv.2 ts vol tradeQty
        = min tradeQty ⌊(specEffectiveCapacity nv.2 ts : ℚ) / (vol : ℚ)⌋ ∧
      vehicleProfit nv.2 ts vol tradeQty unitProfit
        = vehicleQty nv.2 ts vol tradeQty * unitProfit ∧
      vehicleQty nv.2 ts vol tradeQty ≤ tradeQty ∧
      vehicleQty nv.2 ts vol tradeQty
        ≤ ⌊(specEffectiveCapacity nv.2 ts : ℚ) / (vol : ℚ)⌋ := by
  have hspec : specEffectiveCapacity nv.2 ts = rawCapacity nv.2 ts := by
    unfold specEffectiveCapacity rawCapacity
    split_ifs <;> ring
  have hcap : 0 ≤ rawCapacity nv.2 ts := rawCapacity_nonneg nv hnv ts
  have hfloor : maxUnits nv.2 ts vol
      = ⌊(specEffectiveCapacity nv.2 ts : ℚ) / (vol : ℚ)⌋ := by
    rw [hspec, maxUnits, pyIntDiv_eq_floor _ _ hcap hvol]
  refine ⟨?_, rfl, min_le_left _ _, ?_⟩
  · rw [vehicleQty, hfloor]
  · rw [vehicleQty, hfloor]
    exact min_le_right _ _

theorem c1_capacity_model_witness :
    ("Cargo Ship", cargo_ship) ∈ vehicle_capacity ∧ (0 : Int) < 5 ∧
      (vehicleQty cargo_ship "Item" 5 50
          = min 50 ⌊(specEffectiveCapacity cargo_ship "Item" : ℚ) / (5 : ℚ)⌋ ∧
        vehicleProfit cargo_ship "Item" 5 50 5
          = vehicleQty cargo_ship "Item" 5 50 * 5 ∧
        vehicleQty cargo_ship "Item" 5 50 ≤ 50 ∧
        vehicleQty cargo_ship "Item" 5 50
          ≤ ⌊(specEffectiveCapacity cargo_ship "Item" : ℚ) / (5 : ℚ)⌋) :=
  ⟨by decide, by decide,
    c1_capacity_model ("Cargo Ship", cargo_ship) (by decide) "Item" 5 50 5
      (by decide)⟩

/-- C2: the matcher inner-joins the two normalized pools on the item key and
not on price, so for pools of records of one item every sell record is
paired with every buy record (the output has length sells times buys and
contains every pair); every pair that receives derived columns gets trade
quantity min(buy quantity, sell quantity). -/
theorem c2_join_cross_product (claim_id nm ts : String) (vol iid ity : Int)
    (rawS rawB : List RawOrder)
    (hS : ∀ r ∈ rawS, r.itemId = iid ∧ r.itemType = ity)
    (hB : ∀ r ∈ rawB, r.itemId = iid ∧ r.itemType = ity) :
    (mergeOrders (buildPool nm ts vol rawS) (buildPool nm ts vol rawB)).length
        = (buildPool nm ts vol rawS).length *
            (buildPool nm ts vol rawB).length ∧
      (∀ s ∈ buildPool nm ts vol rawS, ∀ b ∈ buildPool nm ts vol rawB,
        mkMergedRow s b ∈
          mergeOrders (buildPool nm ts vol rawS) (buildPool nm ts vol rawB)) ∧
      (∀ m ∈ addDerived (homeFilter claim_id
          (mergeOrders (buildPool nm ts vol rawS) (buildPool nm ts vol rawB))),
        m.tradeQty = min m.buyQty m.sellQty) := by
  have hfilt : ∀ s ∈ buildPool nm ts vol rawS,
      (buildPool nm ts vol rawB).filter
        (fun b => joinKey s = joinKey b) = buildPool nm ts vol rawB := by
    intro s hs
    apply List.filter_eq_self.2
    intro b hb
    have h1 := joinKey_buildPool hS hs
    have h2 := joinKey_buildPool hB hb
    simp [h1, h2]
  refine ⟨?_, ?_, ?_⟩
  · unfold mergeOrders
    rw [List.flatMap_def, List.length_flatten, List.map_map]
    have hlen : ∀ s ∈ buildPool nm ts vol rawS,
        (List.length ∘ fun s =>
          ((buildPool nm ts vol rawB).filter
            (fun b => joinKey s = joinKey b)).map (mkMergedRow s)) s
          = (buildPool nm ts vol rawB).length := by
      intro s hs
      simp [hfilt s hs]
    rw [List.map_congr_left hlen, List.map_const', List.sum_const_nat]
  · intro s hs b hb
    unfold mergeOrders
    refine List.mem_flatMap.2 ⟨s, hs, ?_⟩
    rw [hfilt s hs]
    exact List.mem_map_of_mem _ hb
  · intro m hm
    exact (mem_addDerived hm).2.1

theorem c2_join_cross_product_witness :
    (mergeOrders (buildPool "Stone" "Item" 5 exRawSells)
        (buildPool "Stone" "Item" 5 exRawBuys)).length
      = (buildPool "Stone" "Item" 5 exRawSells).length *
          (buildPool "Stone" "Item" 5 exRawBuys).length ∧
    (∀ s ∈ buildPool "Stone" "Item" 5 exRawSells,
      ∀ b ∈ buildPool "Stone" "Item" 5 exRawBuys,
        mkMergedRow s b ∈ mergeOrders (buildPool "Stone" "Item" 5 exRawSells)
          (buildPool "Stone" "Item" 5 exRawBuys)) ∧
    (∀ m ∈ addDerived (homeFilter "H"
        (mergeOrders (buildPool "Stone" "Item" 5 exRawSells)
          (buildPool "Stone" "Item" 5 exRawBuys))),
      m.tradeQty = min m.buyQty m.sellQty) :=
  c2_join_cross_product "H" "Stone" "Item" 5 1 0 exRawSells exRawBuys
    (by decide) (by decide)

/-- C4: after normalization of a pool built from raw orders of one item,
no two records share (item id, location id, price), provided the raw data
is referentially consistent (a location id determines its name and region,
an item id determines its type code); and each normalized record's quantity
is the sum of the quantities of the raw orders sharing its (item id,
location id, price) key. -/
theorem c4_normalized_uniqueness (nm ts : String) (vol : Int)
    (raws : List RawOrder)
    (hclaim : ∀ r ∈ raws, ∀ r2 ∈ raws, r.claimEntityId = r2.claimEntityId →
        r.claimName = r2.claimName ∧ r.regionName = r2.regionName)
    (hitem : ∀ r ∈ raws, ∀ r2 ∈ raws, r.itemId = r2.itemId →
        r.itemType = r2.itemType) :
    (∀ a ∈ buildPool nm ts vol raws, ∀ b ∈ buildPool nm ts vol raws,
        a.itemId = b.itemId → a.claimEntityId = b.claimEntityId →
        a.priceThreshold = b.priceThreshold → a = b) ∧
      (∀ a ∈ buildPool nm ts vol raws,
        a.quantity = ((raws.filter (fun r => r.itemId = a.itemId ∧
            r.claimEntityId = a.claimEntityId ∧
            r.priceThreshold = a.priceThreshold)).map RawOrder.quantity).sum) := by
  have keyEq : ∀ r ∈ raws, ∀ r2 ∈ raws, r.itemId = r2.itemId →
      r.claimEntityId = r2.claimEntityId →
      r.priceThreshold = r2.priceThreshold →
      (attachMeta nm ts vol r).toOrderKey
        = (attachMeta nm ts vol r2).toOrderKey := by
    intro r hr r2 hr2 h1 h2 h3
    obtain ⟨h4, h5⟩ := hclaim r hr r2 hr2 h2
    have h6 := hitem r hr r2 hr2 h1
    simp [attachMeta, h1, h2, h3, h4, h5, h6]
  constructor
  · intro a ha b hb e1 e2 e3
    have ha' : a ∈ normalize (raws.map (attachMeta nm ts vol)) := ha
    have hb' : b ∈ normalize (raws.map (attachMeta nm ts vol)) := hb
    obtain ⟨-, ha2⟩ := mem_normalize ha'
    obtain ⟨-, hb2⟩ := mem_normalize hb'
    obtain ⟨ra, hra, hka⟩ := mem_buildPool ha
    obtain ⟨rb, hrb, hkb⟩ := mem_buildPool hb
    have hia := congrArg OrderKey.itemId hka
    have hib := congrArg OrderKey.itemId hkb
    have hca := congrArg OrderKey.claimEntityId hka
    have hcb := congrArg OrderKey.claimEntityId hkb
    have hpa := congrArg OrderKey.priceThreshold hka
    have hpb := congrArg OrderKey.priceThreshold hkb
    simp only [attachMeta] at hia hib hca hcb hpa hpb
    have hkk : a.toOrderKey = b.toOrderKey := by
      rw [hka, hkb]
      exact keyEq ra hra rb hrb (by rw [← hia, ← hib]; exact e1)
        (by rw [← hca, ← hcb]; exact e2) (by rw [← hpa, ← hpb]; exact e3)
    calc a = _ := ha2
      _ = _ := by rw [hkk]
      _ = b := hb2.symm
  · intro a ha
    have ha' : a ∈ normalize (raws.map (attachMeta nm ts vol)) := ha
    obtain ⟨hka, ha2⟩ := mem_normalize ha'
    rw [List.map_map] at hka
    rcases List.mem_map.1 hka with ⟨r0, hr0, hk0⟩
    have hi0 := congrArg OrderKey.itemId hk0
    have hc0 := congrArg OrderKey.claimEntityId hk0
    have hp0 := congrArg OrderKey.priceThreshold hk0
    simp only [Function.comp, attachMeta] at hi0 hc0 hp0
    have hq : a.quantity = (((raws.map (attachMeta nm ts vol)).filter
        (fun o => o.toOrderKey = a.toOrderKey)).map Order.quantity).sum :=
      congrArg Order.quantity ha2
    rw [List.filter_map, List.map_map] at hq
    rw [hq]
    have hfc : ∀ r ∈ raws,
        ((fun o : Order => decide (o.toOrderKey = a.toOrderKey)) ∘
            attachMeta nm ts vol) r
          = decide (r.itemId = a.itemId ∧ r.claimEntityId = a.claimEntityId ∧
              r.priceThreshold = a.priceThreshold) := by
      intro r hr
      apply decide_eq_decide.2
      constructor
      · intro hkey
        refine ⟨?_, ?_, ?_⟩
        · rw [← congrArg OrderKey.itemId hkey]; rfl
        · rw [← congrArg OrderKey.claimEntityId hkey]; rfl
        · rw [← congrArg OrderKey.priceThreshold hkey]; rfl
      · rintro ⟨t1, t2, t3⟩
        show (attachMeta nm ts vol r).toOrderKey = a.toOrderKey
        rw [← hk0]
        exact keyEq r hr r0 hr0 (by rw [t1, ← hi0]) (by rw [t2, ← hc0])
          (by rw [t3, ← hp0])
    rw [List.filter_congr hfc]
    rfl

theorem c4_normalized_uniqueness_witness :
    (⟨⟨"Stone", "Item", 1, 0, 5, 10, "H", "Home", "R1"⟩, 130⟩ : Order)
        ∈ buildPool "Stone" "Item" 5 exRawSells ∧
      (⟨⟨"Stone", "Item", 1, 0, 5, 10, "H", "Home", "R1"⟩, 130⟩ : Order).quantity
        = ((exRawSells.filter (fun r =>
            r.itemId = (⟨⟨"Stone", "Item", 1, 0, 5, 10, "H", "Home", "R1"⟩,
              130⟩ : Order).itemId ∧
            r.claimEntityId = (⟨⟨"Stone", "Item", 1, 0, 5, 10, "H", "Home",
              "R1"⟩, 130⟩ : Order).claimEntityId ∧
            r.priceThreshold = (⟨⟨"Stone", "Item", 1, 0, 5, 10, "H", "Home",
              "R1"⟩, 130⟩ : Order).priceThreshold)).map
              RawOrder.quantity).sum :=
  ⟨by decide,
    (c4_normalized_uniqueness "Stone" "Item" 5 exRawSells (by decide)
        (by decide)).2
      ⟨⟨"Stone", "Item", 1, 0, 5, 10, "H", "Home", "R1"⟩, 130⟩ (by decide)⟩


theorem insertAsc_perm (le : α → α → Bool) (a : α) (l : List α) :
    insertAsc le a l ~ a :: l := by
  induction l with
  | nil => exact List.Perm.refl _
  | cons b t ih =>
    unfold insertAsc
    split
    · exact List.Perm.refl _
    · exact (ih.cons b).trans (List.Perm.swap a b t)

theorem insertionSortAsc_perm (le : α → α → Bool) (l : List α) :
    insertionSortAsc le l ~ l := by
  induction l with
  | nil => exact List.Perm.refl _
  | cons a t ih =>
    exact (insertAsc_perm le a (insertionSortAsc le t)).trans (ih.cons a)

theorem sortValuesDesc_perm (key : α → PFloat) (l : List α) :
    sortValuesDesc key l ~ l := by
  have h1 : (insertionSortAsc (fun a b => (key a).le (key b))
      (l.filter (fun r => !(key r).isNan)).reverse).reverse
      ~ l.filter (fun r => !(key r).isNan) := by
    calc (insertionSortAsc (fun a b => (key a).le (key b))
          (l.filter (fun r => !(key r).isNan)).reverse).reverse
        ~ insertionSortAsc (fun a b => (key a).le (key b))
            (l.filter (fun r => !(key r).isNan)).reverse :=
          List.reverse_perm _
      _ ~ (l.filter (fun r => !(key r).isNan)).reverse :=
          insertionSortAsc_perm _ _
      _ ~ l.filter (fun r => !(key r).isNan) := List.reverse_perm _
  have h4 := List.filter_append_perm (fun r => !(key r).isNan) l
  rw [List.filter_congr
    (fun a _ => Bool.not_not ((key a).isNan))] at h4
  exact (h1.append (List.Perm.refl
    (l.filter (fun r => (key r).isNan)))).trans h4

theorem mem_finalReport {r : RankedRow} {claim_id : String}
    {dd : List (String × ℚ)} {ms : List MatchRow}
    (h : r ∈ finalReport claim_id dd ms) :
    ∃ m ∈ ms, r = rowReplaceInf (enrich claim_id dd m) ∧
      rowHasNa r = false := by
  unfold finalReport dropnaStage reportSort at h
  rcases List.mem_filter.1 h with ⟨hmem, hna⟩
  rcases List.mem_map.1 hmem with ⟨r2, hr2, rfl⟩
  have hr2b : r2 ∈ ms.map (enrich claim_id dd) :=
    (sortValuesDesc_perm (fun r => r.cargoShipPPDK) _).mem_iff.1 hr2
  rcases List.mem_map.1 hr2b with ⟨m, hm, rfl⟩
  exact ⟨m, hm, rfl, by simpa using hna⟩

theorem replaceInf_isFin_of_not_nan {x : PFloat}
    (h : x.replaceInf.isNan = false) : x.replaceInf.isFin = true := by
  cases x <;> simp [PFloat.replaceInf, PFloat.isNan, PFloat.isFin] at h ⊢

theorem finalReport_isFin {r : RankedRow} {claim_id : String}
    {dd : List (String × ℚ)} {ms : List MatchRow}
    (h : r ∈ finalReport claim_id dd ms) :
    r.distance.isFin ∧ r.raftPPDK.isFin ∧ r.skiffPPDK.isFin ∧
      r.clipperPPDK.isFin ∧ r.cargoShipPPDK.isFin := by
  obtain ⟨m, hm, rfl, hna⟩ := mem_finalReport h
  have hA := Bool.or_eq_false_iff.1 hna
  have hB := Bool.or_eq_false_iff.1 hA.1
  have hC := Bool.or_eq_false_iff.1 hB.1
  have hD := Bool.or_eq_false_iff.1 hC.1
  exact ⟨replaceInf_isFin_of_not_nan hD.1, replaceInf_isFin_of_not_nan hD.2,
    replaceInf_isFin_of_not_nan hC.2, replaceInf_isFin_of_not_nan hB.2,
    replaceInf_isFin_of_not_nan hA.2⟩

/-- C6: every TradeMatch emitted by the arbitrage matcher has buying price
strictly greater than selling price; unit profit is computed as buy price
minus sell price, and every row with unit profit at most 0 was dropped. -/
theorem c6_profit_positivity (claim_id : String) (sells buys : List Order)
    (m : MatchRow) (hm : m ∈ processItem claim_id sells buys) :
    m.sellPrice < m.buyPrice ∧ m.unitProfit = m.buyPrice - m.sellPrice ∧
      0 < m.unitProfit := by
  unfold processItem profitFilter at hm
  rcases List.mem_filter.1 hm with ⟨hmem, hposb⟩
  have hpos : 0 < m.unitProfit := of_decide_eq_true hposb
  obtain ⟨-, -, hup⟩ := mem_addDerived hmem
  exact ⟨by omega, hup, hpos⟩

theorem c6_profit_positivity_witness :
    exMatch ∈ processItem "H" [exSell] [exBuy] ∧
      (exMatch.sellPrice < exMatch.buyPrice ∧
        exMatch.unitProfit = exMatch.buyPrice - exMatch.sellPrice ∧
        0 < exMatch.unitProfit) :=
  ⟨by decide, c6_profit_positivity "H" [exSell] [exBuy] exMatch (by decide)⟩

/-- C7: every TradeMatch emitted by the arbitrage matcher has its sell-side
location id equal to the home claim id or its buy-side location id equal to
the home claim id (possibly both); pairs touching neither side were removed
by the post-join filter. -/
theorem c7_home_claim_participation (claim_id : String)
    (sells buys : List Order) (m : MatchRow)
    (hm : m ∈ processItem claim_id sells buys) :
    m.sellClaimEntityId = claim_id ∨ m.buyClaimEntityId = claim_id := by
  unfold processItem profitFilter at hm
  rcases List.mem_filter.1 hm with ⟨hmem, -⟩
  obtain ⟨hmr, -, -⟩ := mem_addDerived hmem
  unfold homeFilter at hmr
  rcases List.mem_filter.1 hmr with ⟨-, hpred⟩
  exact of_decide_eq_true hpred

theorem c7_home_claim_participation_witness :
    exMatch ∈ processItem "H" [exSell] [exBuy] ∧
      (exMatch.sellClaimEntityId = "H" ∨ exMatch.buyClaimEntityId = "H") :=
  ⟨by decide,
    c7_home_claim_participation "H" [exSell] [exBuy] exMatch (by decide)⟩

/-- C5: before emission every infinite cell is replaced by the missing-value
marker and every row containing a missing value is dropped: every row of the
final report has only finite distance and profit-per-1k-distance cells; a
match whose counterparty fetch failed (its id is absent from the distance
dict) receives the infinite distance sentinel and never appears in the final
report. -/
theorem c5_completeness_filter (claim_id : String) (dd : List (String × ℚ))
    (ms : List MatchRow) :
    (∀ r ∈ finalReport claim_id dd ms,
        r.distance.isFin ∧ r.raftPPDK.isFin ∧ r.skiffPPDK.isFin ∧
          r.clipperPPDK.isFin ∧ r.cargoShipPPDK.isFin) ∧
      (∀ m : MatchRow,
        dd.find? (fun p => p.1 = targetClaim claim_id m) = none →
          (enrich claim_id dd m).distance = PFloat.pinf ∧
            enrich claim_id dd m ∉ finalReport claim_id dd ms) := by
  refine ⟨fun r hr => finalReport_isFin hr, fun m hnone => ?_⟩
  have hdist : (enrich claim_id dd m).distance = PFloat.pinf := by
    show lookupDist dd (targetClaim claim_id m) = PFloat.pinf
    unfold lookupDist
    rw [hnone]
  refine ⟨hdist, fun hmem => ?_⟩
  have hfin := (finalReport_isFin hmem).1
  rw [hdist] at hfin
  exact absurd hfin (by simp [PFloat.isFin])

theorem c5_completeness_filter_witness :
    ([] : List (String × ℚ)).find?
        (fun p => p.1 = targetClaim "H" exMatch) = none ∧
      ((enrich "H" [] exMatch).distance = PFloat.pinf ∧
        enrich "H" [] exMatch ∉ finalReport "H" [] [exMatch]) :=
  ⟨by decide, (c5_completeness_filter "H" [] [exMatch]).2 exMatch (by decide)⟩

/-- C10: a row whose resolved distance is 0 gets an infinite or undefined
(NaN) profit-per-1k-distance value rather than an error and is removed by
the completeness filter; consequently, when all stored distances are
nonnegative, every row of the final report has a strictly positive finite
distance. -/
theorem c10_zero_distance_drop (claim_id : String) (dd : List (String × ℚ))
    (ms : List MatchRow) :
    (∀ m : MatchRow, (enrich claim_id dd m).distance = PFloat.fin 0 →
        (enrich claim_id dd m).cargoShipPPDK.isFin = false ∧
          enrich claim_id dd m ∉ finalReport claim_id dd ms) ∧
      ((∀ p ∈ dd, 0 ≤ p.2) → ∀ r ∈ finalReport claim_id dd ms,
        ∃ d : ℚ, r.distance = PFloat.fin d ∧ 0 < d) := by
  constructor
  · intro m hd0
    have hd0b : lookupDist dd (targetClaim claim_id m) = PFloat.fin 0 := hd0
    have hppdk : (enrich claim_id dd m).cargoShipPPDK
        = ppdk (vehicleProfit cargo_ship m.itemTypeStr m.itemVolume
            m.tradeQty m.unitProfit) (PFloat.fin 0) := by
      show ppdk _ (lookupDist dd (targetClaim claim_id m)) = _
      rw [hd0b]
    have hnf : (enrich claim_id dd m).cargoShipPPDK.isFin = false := by
      rw [hppdk]
      simp only [ppdk, if_pos rfl]
      split_ifs <;> rfl
    refine ⟨hnf, fun hmem => ?_⟩
    have hfin := (finalReport_isFin hmem).2.2.2.2
    rw [hnf] at hfin
    exact Bool.false_ne_true hfin
  · intro hnn r hr
    obtain ⟨m, hm, hre, hna⟩ := mem_finalReport hr
    have hA := Bool.or_eq_false_iff.1 (hre ▸ hna)
    have hB := Bool.or_eq_false_iff.1 hA.1
    have hC := Bool.or_eq_false_iff.1 hB.1
    have hD := Bool.or_eq_false_iff.1 hC.1
    have h1 : (enrich claim_id dd m).distance.replaceInf.isNan = false := hD.1
    have h5 : (enrich claim_id dd m).cargoShipPPDK.replaceInf.isNan
        = false := hA.2
    cases hfind : dd.find? (fun p => p.1 = targetClaim claim_id m) with
    | none =>
      exfalso
      have hdp : (enrich claim_id dd m).distance = PFloat.pinf := by
        show lookupDist dd (targetClaim claim_id m) = PFloat.pinf
        unfold lookupDist
        rw [hfind]
      rw [hdp] at h1
      exact absurd h1 (by simp [PFloat.replaceInf, PFloat.isNan])
    | some p =>
      have hd : (enrich claim_id dd m).distance = PFloat.fin p.2 := by
        show lookupDist dd (targetClaim claim_id m) = PFloat.fin p.2
        unfold lookupDist
        rw [hfind]
      have hple : 0 ≤ p.2 := hnn p (List.mem_of_find?_eq_some hfind)
      by_cases hz : p.2 = 0
      · exfalso
        have hpp : (enrich claim_id dd m).cargoShipPPDK
            = ppdk (vehicleProfit cargo_ship m.itemTypeStr m.itemVolume
                m.tradeQty m.unitProfit) (PFloat.fin 0) := by
          show ppdk _ (lookupDist dd (targetClaim claim_id m)) = _
          rw [show lookupDist dd (targetClaim claim_id m) = PFloat.fin 0 from
            hz ▸ hd]
        rw [hpp] at h5
        revert h5
        simp only [ppdk, if_pos rfl]
        split_ifs <;> simp [PFloat.replaceInf, PFloat.isNan]
      · refine ⟨p.2, ?_, lt_of_le_of_ne hple (Ne.symm hz)⟩
        rw [hre]
        show (enrich claim_id dd m).distance.replaceInf = PFloat.fin p.2
        rw [hd]
        rfl

theorem c10_zero_distance_drop_witness :
    (enrich "H" [("B", 0)] exMatch).distance = PFloat.fin 0 ∧
      ((enrich "H" [("B", 0)] exMatch).cargoShipPPDK.isFin = false ∧
        enrich "H" [("B", 0)] exMatch ∉ finalReport "H" [("B", 0)] [exMatch]) :=
  ⟨by decide,
    (c10_zero_distance_drop "H" [("B", 0)] [exMatch]).1 exMatch (by decide)⟩

theorem roundHalfEvenR_nonneg {x : ℝ} (hx : 0 ≤ x) :
    0 ≤ roundHalfEvenR x := by
  unfold roundHalfEvenR
  split_ifs with h1 h2
  · exact Int.floor_nonneg.2 hx
  · have hf : 0 ≤ ⌊x⌋ := Int.floor_nonneg.2 hx
    omega
  · rw [round_eq]
    apply Int.floor_nonneg.2
    linarith

theorem round2R_nonneg {x : ℝ} (hx : 0 ≤ x) : 0 ≤ round2R x := by
  unfold round2R
  apply div_nonneg _ (by norm_num)
  exact_mod_cast roundHalfEvenR_nonneg (by linarith : (0 : ℝ) ≤ 100 * x)

/-- C8: for every fetched location the distance resolver maps its claim id
to a nonnegative value equal to the Euclidean distance between the home
coordinates and the location coordinates, divided by the fixed scale factor
3 and rounded to 2 decimal places. -/
theorem c8_distance_mapping (X0 Z0 : ℤ) (fetched : List (String × ℤ × ℤ))
    (c : String) (x z : ℤ) (hmem : (c, x, z) ∈ fetched)
    (hnodup : (fetched.map Prod.fst).Nodup) :
    ∃ v : ℝ,
      (buildDistDict X0 Z0 fetched).find? (fun p => p.1 = c) = some (c, v) ∧
        v = round2R (euclideanDistance X0 Z0 x z / 3) ∧ 0 ≤ v := by
  induction fetched with
  | nil => cases hmem
  | cons hd tl ih =>
    rcases List.mem_cons.1 hmem with heq | htl
    · refine ⟨distCalc X0 Z0 x z, ?_, rfl, ?_⟩
      · rw [show buildDistDict X0 Z0 (hd :: tl)
            = (hd.1, distCalc X0 Z0 hd.2.1 hd.2.2) :: buildDistDict X0 Z0 tl
          from rfl]
        rw [← heq]
        exact List.find?_cons_of_pos _ (by simp)
      · exact round2R_nonneg
          (div_nonneg (Real.sqrt_nonneg _) (by norm_num))
    · have hkc : hd.1 ≠ c := by
        intro hbad
        rcases List.nodup_cons.1 hnodup with ⟨hni, -⟩
        exact hni (by rw [hbad]; exact List.mem_map_of_mem Prod.fst htl)
      obtain ⟨v, hfind, hv, hvnn⟩ := ih htl (List.nodup_cons.1 hnodup).2
      refine ⟨v, ?_, hv, hvnn⟩
      rw [show buildDistDict X0 Z0 (hd :: tl)
          = (hd.1, distCalc X0 Z0 hd.2.1 hd.2.2) :: buildDistDict X0 Z0 tl
        from rfl]
      rw [List.find?_cons_of_neg _ (by simp [hkc])]
      exact hfind

theorem c8_distance_mapping_witness :
    ((("a" : String), (3 : ℤ), (4 : ℤ)) ∈
        [(("a" : String), (3 : ℤ), (4 : ℤ))]) ∧
      ∃ v : ℝ,
        (buildDistDict 0 0 [("a", 3, 4)]).find? (fun p => p.1 = "a")
            = some ("a", v) ∧
          v = round2R (euclideanDistance 0 0 3 4 / 3) ∧ 0 ≤ v :=
  ⟨by decide,
    c8_distance_mapping 0 0 [("a", 3, 4)] "a" 3 4 (by decide) (by decide)⟩

/-- C9 counterexample: a non-empty final table with one trade between the
home claim ("Home") and one counterparty.  The fourth overview cell counts
the distinct claim names of both columns, which includes the home claim, so
it is 2 while the number of distinct counterparty locations is 1. -/
theorem c9_counterexample :
    overviewCounterpartyCell [exRanked] = 2 ∧
      specCounterpartyCount "Home" [exRanked] = 1 ∧
      overviewCounterpartyCell [exRanked]
        ≠ specCounterpartyCount "Home" [exRanked] := by
  refine ⟨by decide, ?_, ?_⟩ <;> decide

/-- C9 amended: when the final dataset is non-empty, the fourth labeled
overview cell equals the number of distinct claim names appearing across the
buy-side and sell-side name columns of the final report, which includes the
home claim itself; whenever the home claim name occurs in the table this is
the distinct counterparty-name count plus one. -/
theorem c9_amended_overview_cell (homeName : String) (l : List RankedRow)
    (hhome : homeName ∈ ravelNames l) :
    overviewCounterpartyCell l = (ravelNames l).toFinset.card ∧
      overviewCounterpartyCell l = specCounterpartyCount homeName l + 1 := by
  have hcard : overviewCounterpartyCell l = (ravelNames l).toFinset.card := by
    rw [overviewCounterpartyCell, List.card_toFinset]
  refine ⟨hcard, ?_⟩
  rw [hcard]
  unfold specCounterpartyCount
  have hmem : homeName ∈ (ravelNames l).toFinset := List.mem_toFinset.2 hhome
  rw [Finset.filter_ne', Finset.card_erase_of_mem hmem]
  have hpos : 0 < (ravelNames l).toFinset.card :=
    Finset.card_pos.2 ⟨homeName, hmem⟩
  omega

theorem c9_amended_overview_cell_witness :
    ("Home" ∈ ravelNames [exRanked]) ∧
      (overviewCounterpartyCell [exRanked]
          = (ravelNames [exRanked]).toFinset.card ∧
        overviewCounterpartyCell [exRanked]
          = specCounterpartyCount "Home" [exRanked] + 1) :=
  ⟨by decide, c9_amended_overview_cell "Home" [exRanked] (by decide)⟩

end BitcraftMercantile
